import Mathlib

/-!
Verification of the `SpanGroups` dict proxy of spaCy
(`spacy/tokens/_dict_proxies.py`).

`SpanGroups` is a `UserDict` held by a `Doc`, mapping string labels to
`SpanGroup` objects, with a weak back-reference to the owning `Doc` and a
two-format binary serialization protocol (`to_bytes` / `from_bytes`).

Shallow embedding conventions:
* A `Doc` is identified by a `Nat` (identity of the Python object).
* Python object identity of a `SpanGroup` (Python's `id(value)`) is an
  explicit `gid : Nat` field; aliasing two labels to one instance is
  modelled by both labels mapping to groups with the same `gid`.
* The weak reference `self.doc_ref` is an `Option Nat`: `some d` while the
  doc is alive, `none` once it has been destroyed.
* msgpack byte strings are modelled injectively: `Bytes.empty` is the empty
  byte string `b''`, and `Bytes.enc m` is the (injective, never empty)
  msgpack encoding of the decoded value `m`.
* `UserDict.data` is an insertion-ordered association list with unique keys;
  assignment to an existing key replaces the value in place (CPython dict
  semantics), which `setEntry` implements.
* A raised Python exception is an `Err` value; operations that mutate
  `self` before raising return the mutated state next to the error.
-/

namespace DictProxies

/-- Modelled from the spec: the serialized payload produced by
`SpanGroup.to_bytes` (the span-group codec lives outside this file's
source). It carries the group's embedded `name` and its span content,
but neither the owning doc nor the instance identity. -/
structure GroupBytes where
  name : String
  spans : List Nat
deriving DecidableEq, Repr

/-- Modelled from the spec: a `SpanGroup` instance. `gid` is the Python
object identity (`id(value)`), `docId` the identity of the owning doc
(`value.doc`), `name` the embedded group name, `spans` the span content. -/
structure SpanGroup where
  gid : Nat
  docId : Nat
  name : String
  spans : List Nat
deriving DecidableEq, Repr

/-- Modelled from the spec: `SpanGroup.to_bytes` serializes the name and
content only — two distinct instances with equal content serialize to
identical bytes. -/
def SpanGroup.toGB (g : SpanGroup) : GroupBytes :=
  ⟨g.name, g.spans⟩

/-- Modelled from the spec: `SpanGroup(doc).from_bytes(b)` — a group bound
to `doc`, content restored from the bytes, with a fresh identity `gid`. -/
def GroupBytes.toGroup (b : GroupBytes) (docId gid : Nat) : SpanGroup :=
  ⟨gid, docId, b.name, b.spans⟩

/-- Content equality of two groups (same name and spans); instance
identity and owning doc are ignored. -/
def contentEq (g h : SpanGroup) : Prop :=
  g.name = h.name ∧ g.spans = h.spans

instance : DecidablePred fun p : SpanGroup × SpanGroup => contentEq p.1 p.2 :=
  fun p => by unfold contentEq; infer_instance

/-- A decoded msgpack value at the granularity the container's protocol
uses: a list of group payloads (legacy format), a map from group payloads
to label lists (current format), or any other top-level shape. -/
inductive Msg where
  | mlist : List GroupBytes → Msg
  | mdict : List (GroupBytes × List String) → Msg
  | other : Nat → Msg
deriving DecidableEq, Repr

/-- A byte string as seen by `from_bytes`: either the empty byte string
`b''` or the msgpack encoding of a decoded value (injective, non-empty). -/
inductive Bytes where
  | empty : Bytes
  | enc : Msg → Bytes
deriving DecidableEq, Repr

/-- The exceptions the container can raise: the `assert` in `__setitem__`
(`AssertionError`) and `ValueError(Errors.E866)` from `_ensure_doc`. -/
inductive Err where
  | assertionError
  | ownerUnavailable
deriving DecidableEq, Repr

/-- The `SpanGroups` container: `doc_ref = weakref.ref(doc)` and the
`UserDict` backing store, an insertion-ordered association list. -/
structure SpanGroups where
  docRef : Option Nat
  data : List (String × SpanGroup)
deriving DecidableEq, Repr

/-- CPython dict assignment: replace in place if the key exists (keeping
its position), else append at the end. -/
def setEntry {κ β : Type} [DecidableEq κ] : List (κ × β) → κ → β → List (κ × β)
  | [], k, v => [(k, v)]
  | (k', v') :: rest, k, v =>
    if k' = k then (k, v) :: rest else (k', v') :: setEntry rest k v

/-- Dict lookup on the association list (`self[key]` / `key in self`). -/
def lookupKey {κ β : Type} [DecidableEq κ] : List (κ × β) → κ → Option β
  | [], _ => none
  | (k', v) :: rest, k => if k' = k then some v else lookupKey rest k

/-- The constant `SpanGroups._EMPTY_BYTES = srsly.msgpack_dumps([])`. -/
def SpanGroups._EMPTY_BYTES : Bytes :=
  Bytes.enc (Msg.mlist [])

/-- Method `SpanGroups._ensure_doc`: resolve the weak reference, raising
`ValueError(Errors.E866)` if the doc has been destroyed. -/
def SpanGroups._ensure_doc (sg : SpanGroups) : Except Err Nat :=
  match sg.docRef with
  | some d => Except.ok d
  | none => Except.error Err.ownerUnavailable

/-- Method `SpanGroups.__setitem__` when the value is already a `SpanGroup`:
`assert value.doc is self.doc_ref()`, then `UserDict.__setitem__`. A
failed assertion raises before anything is stored, so the container is
returned unchanged next to the error. -/
def SpanGroups.setitemGroup (sg : SpanGroups) (key : String) (value : SpanGroup) :
    SpanGroups × Option Err :=
  if sg.docRef = some value.docId then
    ({ sg with data := setEntry sg.data key value }, none)
  else
    (sg, some Err.assertionError)

/-- Method `SpanGroups.__setitem__` when the value is a plain span sequence:
`_make_span_group` calls `_ensure_doc` and builds
`SpanGroup(doc, name=key, spans=spans)` with fresh identity `gid`, then
the assert-and-store path runs. -/
def SpanGroups.setitemSpans (sg : SpanGroups) (key : String) (spans : List Nat)
    (gid : Nat) : SpanGroups × Option Err :=
  match sg.docRef with
  | none => (sg, some Err.ownerUnavailable)
  | some d => sg.setitemGroup key ⟨gid, d, key, spans⟩

/-- The loop of `UserDict.__init__(self, items)`: each seeded item goes
through `__setitem__`, stopping at the first raised exception. -/
def initItems : SpanGroups → List (String × SpanGroup) → SpanGroups × Option Err
  | sg, [] => (sg, none)
  | sg, (k, v) :: rest =>
    match sg.setitemGroup k v with
    | (sg', none) => initItems sg' rest
    | (sg', some e) => (sg', some e)

/-- Constructor `SpanGroups.__init__(doc, items)`: bind the weak reference, then seed
the entries through `__setitem__`. -/
def SpanGroups.init (docId : Nat) (items : List (String × SpanGroup)) :
    SpanGroups × Option Err :=
  initItems ⟨some docId, []⟩ items

/-- One step of the `id_bytes_keys` accumulation in `to_bytes`: if the
instance identity `gid` is already present, append the key to its label
list; otherwise append a new bucket `[value.to_bytes(), key]`. -/
def addIdEntry : List (Nat × GroupBytes × List String) → Nat → GroupBytes → String →
    List (Nat × GroupBytes × List String)
  | [], gid, gb, key => [(gid, gb, [key])]
  | (gid', gb', keys') :: rest, gid, gb, key =>
    if gid' = gid then (gid', gb', keys' ++ [key]) :: rest
    else (gid', gb', keys') :: addIdEntry rest gid gb key

/-- The `for key, value in self.items()` loop of `to_bytes`, building the
`id_bytes_keys` dict keyed by `id(value)`. -/
def buildIdBytesKeys : List (String × SpanGroup) → List (Nat × GroupBytes × List String) →
    List (Nat × GroupBytes × List String)
  | [], acc => acc
  | (key, value) :: rest, acc => buildIdBytesKeys rest (addIdEntry acc value.gid value.toGB key)

/-- A Python dict comprehension over a list of key-value pairs: later
occurrences of the same key overwrite the value, keeping the first
occurrence's position. -/
def buildDict {κ β : Type} [DecidableEq κ] : List (κ × β) → List (κ × β) → List (κ × β)
  | [], acc => acc
  | (k, v) :: rest, acc => buildDict rest (setEntry acc k v)

/-- Method `SpanGroups.to_bytes`: the empty container encodes to `_EMPTY_BYTES`;
otherwise group entries by instance identity, then emit the msgpack dict
`{value_bytes: keys for value_bytes, *keys in id_bytes_keys.values()}`. -/
def SpanGroups.to_bytes (sg : SpanGroups) : Bytes :=
  if sg.data = [] then SpanGroups._EMPTY_BYTES
  else
    Bytes.enc (Msg.mdict
      (buildDict ((buildIdBytesKeys sg.data []).map fun e => (e.2.1, e.2.2)) []))

/-- The result of `from_bytes`: the container state after the call (the
state reached before a raise, when one happens), the `W119` warnings
emitted (recorded by colliding group name), and the raised exception. -/
structure DecodeOut where
  c : SpanGroups
  warns : List String
  err : Option Err
deriving DecidableEq, Repr

/-- The inner `for key in keys` loop of the dict-format branch of
`from_bytes`: every key is bound to the one decoded group instance. -/
def setKeys : SpanGroups → SpanGroup → List String → SpanGroups × Option Err
  | sg, _, [] => (sg, none)
  | sg, g, k :: ks =>
    match sg.setitemGroup k g with
    | (sg', none) => setKeys sg' g ks
    | (sg', some e) => (sg', some e)

/-- The dict-format branch of `from_bytes`: each map entry's bytes are
decoded once (`SpanGroup(doc).from_bytes(value_bytes)`, fresh identity
`gid`, incremented per entry), then every key of the entry is assigned
that same instance. -/
def decodeDict (d : Nat) : Nat → List (GroupBytes × List String) → SpanGroups → DecodeOut
  | _, [], sg => ⟨sg, [], none⟩
  | gid, (gb, keys) :: rest, sg =>
    match setKeys sg (gb.toGroup d gid) keys with
    | (sg', none) => decodeDict d (gid + 1) rest sg'
    | (sg', some e) => ⟨sg', [], some e⟩

/-- The list-format branch of `from_bytes`: each blob is decoded, a `W119`
warning is emitted when its embedded name is already a label, then the
group is stored under its name (overwriting on collision). -/
def decodeList (d : Nat) : Nat → List GroupBytes → SpanGroups → List String → DecodeOut
  | _, [], sg, ws => ⟨sg, ws, none⟩
  | gid, gb :: rest, sg, ws =>
    let group := gb.toGroup d gid
    let ws' := if (lookupKey sg.data group.name).isSome then ws ++ [group.name] else ws
    match sg.setitemGroup group.name group with
    | (sg', none) => decodeList d (gid + 1) rest sg' ws'
    | (sg', some e) => ⟨sg', ws', some e⟩

/-- Method `SpanGroups.from_bytes`: clear, resolve the doc, then dispatch on the
decoded shape — dict (current format), list (legacy format), anything
else silently ignored. `base` supplies the fresh identities of decoded
groups. -/
def SpanGroups.from_bytes (sg : SpanGroups) (base : Nat) (b : Bytes) : DecodeOut :=
  let cleared : SpanGroups := { sg with data := [] }
  match cleared.docRef with
  | none => ⟨cleared, [], some Err.ownerUnavailable⟩
  | some d =>
    match b with
    | Bytes.empty => ⟨cleared, [], none⟩
    | Bytes.enc m =>
      if m = Msg.mlist [] then ⟨cleared, [], none⟩
      else
        match m with
        | Msg.mdict entries => decodeDict d base entries cleared
        | Msg.mlist gbs => decodeList d base gbs cleared []
        | Msg.other _ => ⟨cleared, [], none⟩

/-- Method `SpanGroups.copy(doc=None)`: resolve the target doc (`_ensure_doc`
when no explicit target is given), then
`SpanGroups(doc).from_bytes(self.to_bytes())`. -/
def SpanGroups.copy (sg : SpanGroups) (doc : Option Nat) (base : Nat) :
    Except Err SpanGroups :=
  match (match doc with
         | some d => Except.ok d
         | none => sg._ensure_doc) with
  | Except.error e => Except.error e
  | Except.ok d =>
    let out := (SpanGroups.mk (some d) []).from_bytes base sg.to_bytes
    match out.err with
    | some e => Except.error e
    | none => Except.ok out.c

/-! ### Association-list lemmas -/

theorem lookupKey_setEntry {κ β : Type} [DecidableEq κ] (l : List (κ × β)) (k k' : κ)
    (v : β) : lookupKey (setEntry l k v) k' = if k = k' then some v else lookupKey l k' := by
  induction l with
  | nil => simp [setEntry, lookupKey]
  | cons e rest ih =>
    obtain ⟨k₀, v₀⟩ := e
    by_cases h : k₀ = k
    · subst h
      by_cases hk' : k₀ = k' <;> simp [setEntry, lookupKey, hk']
    · simp only [setEntry, if_neg h]
      by_cases h' : k₀ = k'
      · subst h'
        have : ¬ k = k₀ := fun hh => h hh.symm
        simp [lookupKey, this]
      · simp [lookupKey, h', ih]

theorem setEntry_of_not_mem {κ β : Type} [DecidableEq κ] (l : List (κ × β)) (k : κ) (v : β)
    (h : lookupKey l k = none) : setEntry l k v = l ++ [(k, v)] := by
  induction l with
  | nil => simp [setEntry]
  | cons e rest ih =>
    obtain ⟨k₀, v₀⟩ := e
    by_cases hk : k₀ = k
    · subst hk
      simp [lookupKey] at h
    · simp only [lookupKey, if_neg hk] at h
      simp [setEntry, hk, ih h]

theorem lookupKey_append_left {κ β : Type} [DecidableEq κ] (l l' : List (κ × β)) (k : κ)
    (h : lookupKey l k ≠ none) : lookupKey (l ++ l') k = lookupKey l k := by
  induction l with
  | nil => simp [lookupKey] at h
  | cons e rest ih =>
    obtain ⟨k₀, v₀⟩ := e
    by_cases hk : k₀ = k
    · simp [lookupKey, hk]
    · simp only [lookupKey, if_neg hk] at h ⊢
      exact ih h

theorem lookupKey_append_right {κ β : Type} [DecidableEq κ] (l l' : List (κ × β)) (k : κ)
    (h : lookupKey l k = none) : lookupKey (l ++ l') k = lookupKey l' k := by
  induction l with
  | nil => simp [lookupKey]
  | cons e rest ih =>
    obtain ⟨k₀, v₀⟩ := e
    by_cases hk : k₀ = k
    · subst hk
      simp [lookupKey] at h
    · simp only [lookupKey, if_neg hk] at h ⊢
      exact ih h

theorem lookupKey_eq_none_of_not_mem_keys {κ β : Type} [DecidableEq κ]
    (l : List (κ × β)) (k : κ) (h : k ∉ l.map Prod.fst) : lookupKey l k = none := by
  induction l with
  | nil => rfl
  | cons e rest ih =>
    obtain ⟨k₀, v₀⟩ := e
    simp only [List.map_cons, List.mem_cons] at h
    push_neg at h
    have hk : k₀ ≠ k := fun hh => h.1 hh.symm
    simp [lookupKey, hk, ih h.2]

theorem mem_of_lookupKey_eq_some {κ β : Type} [DecidableEq κ]
    (l : List (κ × β)) (k : κ) (v : β) (h : lookupKey l k = some v) : (k, v) ∈ l := by
  induction l with
  | nil => simp [lookupKey] at h
  | cons e rest ih =>
    obtain ⟨k₀, v₀⟩ := e
    by_cases hk : k₀ = k
    · subst hk
      simp only [lookupKey, if_pos rfl] at h
      cases h
      exact List.mem_cons_self _ _
    · simp only [lookupKey, if_neg hk] at h
      exact List.mem_cons_of_mem _ (ih h)

theorem lookupKey_eq_some_of_mem {κ β : Type} [DecidableEq κ]
    (l : List (κ × β)) (k : κ) (v : β) (hmem : (k, v) ∈ l)
    (hnodup : (l.map Prod.fst).Nodup) : lookupKey l k = some v := by
  induction l with
  | nil => simp at hmem
  | cons e rest ih =>
    obtain ⟨k₀, v₀⟩ := e
    simp only [List.map_cons, List.nodup_cons] at hnodup
    rcases List.mem_cons.mp hmem with h | h
    · cases h
      simp [lookupKey]
    · have hk : k₀ ≠ k := by
        intro hh
        subst hh
        exact hnodup.1 (List.mem_map.mpr ⟨(k₀, v), h, rfl⟩)
      simp [lookupKey, hk, ih h hnodup.2]

/-! ### Characterization of the decode loops -/

theorem toGB_toGroup (b : GroupBytes) (d gid : Nat) : (b.toGroup d gid).toGB = b := rfl

/-- Repeated dict assignment of one group to a list of keys: the backing
list of the inner loop of the dict-format decode. -/
def applyKeys (g : SpanGroup) (keys : List String) (data : List (String × SpanGroup)) :
    List (String × SpanGroup) :=
  keys.foldl (fun acc k => setEntry acc k g) data

/-- Pure-data form of the dict-format decode loop. -/
def dictApply (d : Nat) : Nat → List (GroupBytes × List String) → List (String × SpanGroup) →
    List (String × SpanGroup)
  | _, [], data => data
  | gid, (gb, keys) :: rest, data =>
    dictApply d (gid + 1) rest (applyKeys (gb.toGroup d gid) keys data)

theorem setitemGroup_ok (sg : SpanGroups) (k : String) (g : SpanGroup)
    (h : sg.docRef = some g.docId) :
    sg.setitemGroup k g = ({ sg with data := setEntry sg.data k g }, none) := by
  simp [SpanGroups.setitemGroup, h]

theorem setKeys_ok (sg : SpanGroups) (g : SpanGroup) (keys : List String)
    (h : sg.docRef = some g.docId) :
    setKeys sg g keys = ({ sg with data := applyKeys g keys sg.data }, none) := by
  induction keys generalizing sg with
  | nil => simp [setKeys, applyKeys]
  | cons k ks ih =>
    rw [setKeys, setitemGroup_ok sg k g h]
    exact ih { sg with data := setEntry sg.data k g } h

theorem decodeDict_eq (d : Nat) (gid : Nat) (entries : List (GroupBytes × List String))
    (sg : SpanGroups) (h : sg.docRef = some d) :
    decodeDict d gid entries sg =
      ⟨{ sg with data := dictApply d gid entries sg.data }, [], none⟩ := by
  induction entries generalizing gid sg with
  | nil => simp [decodeDict, dictApply]
  | cons e rest ih =>
    obtain ⟨gb, keys⟩ := e
    rw [decodeDict, setKeys_ok sg (gb.toGroup d gid) keys h]
    exact ih (gid + 1) { sg with data := applyKeys (gb.toGroup d gid) keys sg.data } h

/-- The group payload a label ends up bound to by the dict-format decode
loop: the last map entry whose label list contains the label wins. -/
def keyGB : List (GroupBytes × List String) → String → Option GroupBytes
  | [], _ => none
  | (gb, keys) :: rest, k =>
    match keyGB rest k with
    | some r => some r
    | none => if k ∈ keys then some gb else none

/-- Instance-level version of `keyGB`: the decoded group (fresh identity
included) a label ends up bound to. -/
def keyGroup (d : Nat) : Nat → List (GroupBytes × List String) → String → Option SpanGroup
  | _, [], _ => none
  | gid, (gb, keys) :: rest, k =>
    match keyGroup d (gid + 1) rest k with
    | some r => some r
    | none => if k ∈ keys then some (gb.toGroup d gid) else none

theorem lookupKey_applyKeys_not_mem (g : SpanGroup) (keys : List String)
    (data : List (String × SpanGroup)) (k : String) (h : k ∉ keys) :
    lookupKey (applyKeys g keys data) k = lookupKey data k := by
  induction keys generalizing data with
  | nil => rfl
  | cons k₀ ks ih =>
    simp only [List.mem_cons, not_or] at h
    have hk0 : k₀ ≠ k := fun hh => h.1 hh.symm
    have step : lookupKey (setEntry data k₀ g) k = lookupKey data k := by
      rw [lookupKey_setEntry]
      simp [hk0]
    calc lookupKey (applyKeys g (k₀ :: ks) data) k
        = lookupKey (applyKeys g ks (setEntry data k₀ g)) k := rfl
      _ = lookupKey (setEntry data k₀ g) k := ih (setEntry data k₀ g) h.2
      _ = lookupKey data k := step

theorem lookupKey_applyKeys_mem (g : SpanGroup) (keys : List String)
    (data : List (String × SpanGroup)) (k : String) (h : k ∈ keys) :
    lookupKey (applyKeys g keys data) k = some g := by
  induction keys generalizing data with
  | nil => simp at h
  | cons k₀ ks ih =>
    by_cases hk : k ∈ ks
    · exact ih (setEntry data k₀ g) hk
    · have hkk : k = k₀ := by
        rcases List.mem_cons.mp h with h' | h'
        · exact h'
        · exact absurd h' hk
      subst hkk
      calc lookupKey (applyKeys g ks (setEntry data k g)) k
          = lookupKey (setEntry data k g) k := lookupKey_applyKeys_not_mem g ks _ k hk
        _ = some g := by rw [lookupKey_setEntry]; simp

theorem lookupKey_dictApply_toGB (d : Nat) (gid : Nat)
    (entries : List (GroupBytes × List String)) (data : List (String × SpanGroup))
    (k : String) :
    (lookupKey (dictApply d gid entries data) k).map SpanGroup.toGB =
      match keyGB entries k with
      | some gb => some gb
      | none => (lookupKey data k).map SpanGroup.toGB := by
  induction entries generalizing gid data with
  | nil => rfl
  | cons e rest ih =>
    obtain ⟨gb, keys⟩ := e
    rw [dictApply, ih]
    cases hkx : keyGB rest k with
    | some r => simp [keyGB, hkx]
    | none =>
      by_cases hk : k ∈ keys
      · simp [keyGB, hkx, hk, lookupKey_applyKeys_mem _ _ _ _ hk, toGB_toGroup]
      · simp [keyGB, hkx, hk, lookupKey_applyKeys_not_mem _ _ _ _ hk]

theorem lookupKey_dictApply_group (d : Nat) (gid : Nat)
    (entries : List (GroupBytes × List String)) (data : List (String × SpanGroup))
    (k : String) :
    lookupKey (dictApply d gid entries data) k =
      match keyGroup d gid entries k with
      | some g => some g
      | none => lookupKey data k := by
  induction entries generalizing gid data with
  | nil => rfl
  | cons e rest ih =>
    obtain ⟨gb, keys⟩ := e
    rw [dictApply, ih]
    cases hkx : keyGroup d (gid + 1) rest k with
    | some r => simp [keyGroup, hkx]
    | none =>
      by_cases hk : k ∈ keys
      · simp [keyGroup, hkx, hk, lookupKey_applyKeys_mem _ _ _ _ hk]
      · simp [keyGroup, hkx, hk, lookupKey_applyKeys_not_mem _ _ _ _ hk]

theorem keyGB_eq_none (entries : List (GroupBytes × List String)) (k : String)
    (h : ∀ e ∈ entries, k ∉ e.2) : keyGB entries k = none := by
  induction entries with
  | nil => rfl
  | cons e rest ih =>
    obtain ⟨gb, keys⟩ := e
    have hrest := ih fun e' he' => h e' (List.mem_cons_of_mem _ he')
    have hhead : k ∉ keys := h (gb, keys) (List.mem_cons_self _ _)
    simp [keyGB, hrest, hhead]

theorem keyGroup_eq_none (d : Nat) (gid : Nat) (entries : List (GroupBytes × List String))
    (k : String) (h : ∀ e ∈ entries, k ∉ e.2) : keyGroup d gid entries k = none := by
  induction entries generalizing gid with
  | nil => rfl
  | cons e rest ih =>
    obtain ⟨gb, keys⟩ := e
    have hrest := ih (gid + 1) fun e' he' => h e' (List.mem_cons_of_mem _ he')
    have hhead : k ∉ keys := h (gb, keys) (List.mem_cons_self _ _)
    simp [keyGroup, hrest, hhead]

theorem keyGB_of_mem (entries : List (GroupBytes × List String)) (gb : GroupBytes)
    (keys : List String) (k : String) (he : (gb, keys) ∈ entries) (hk : k ∈ keys)
    (hdis : entries.Pairwise fun e e' => ∀ x ∈ e.2, x ∉ e'.2) :
    keyGB entries k = some gb := by
  induction entries with
  | nil => simp at he
  | cons e rest ih =>
    rcases List.mem_cons.mp he with h' | h'
    · subst h'
      have hrest : keyGB rest k = none :=
        keyGB_eq_none rest k fun e' he' => (List.pairwise_cons.mp hdis).1 e' he' k hk
      simp [keyGB, hrest, hk]
    · have := ih h' (List.pairwise_cons.mp hdis).2
      simp [keyGB, this]

theorem keyGroup_same (d : Nat) (gid : Nat) (entries : List (GroupBytes × List String))
    (gb : GroupBytes) (keys : List String) (k k' : String)
    (he : (gb, keys) ∈ entries) (hk : k ∈ keys) (hk' : k' ∈ keys)
    (hdis : entries.Pairwise fun e e' => ∀ x ∈ e.2, x ∉ e'.2) :
    ∃ g, keyGroup d gid entries k = some g ∧ keyGroup d gid entries k' = some g ∧
      g.toGB = gb ∧ g.docId = d := by
  induction entries generalizing gid with
  | nil => simp at he
  | cons e rest ih =>
    rcases List.mem_cons.mp he with h' | h'
    · subst h'
      have hrest : keyGroup d (gid + 1) rest k = none :=
        keyGroup_eq_none d (gid + 1) rest k
          fun e' he' => (List.pairwise_cons.mp hdis).1 e' he' k hk
      have hrest' : keyGroup d (gid + 1) rest k' = none :=
        keyGroup_eq_none d (gid + 1) rest k'
          fun e' he' => (List.pairwise_cons.mp hdis).1 e' he' k' hk'
      refine ⟨gb.toGroup d gid, ?_, ?_, rfl, rfl⟩
      · simp [keyGroup, hrest, hk]
      · simp [keyGroup, hrest', hk']
    · obtain ⟨g, hg, hg', hgb, hd⟩ := ih (gid + 1) h' (List.pairwise_cons.mp hdis).2
      exact ⟨g, by simp [keyGroup, hg], by simp [keyGroup, hg'], hgb, hd⟩

/-! ### Characterization of the `to_bytes` grouping -/

/-- The labels of all entries whose group has instance identity `γ`, in
container order. -/
def gidEntries (data : List (String × SpanGroup)) (γ : Nat) : List String :=
  (data.filter fun e => e.2.gid = γ).map Prod.fst

/-- The serialized payload of the first group in the container with
instance identity `γ`. -/
def firstGB : List (String × SpanGroup) → Nat → Option GroupBytes
  | [], _ => none
  | (_, g) :: rest, γ => if g.gid = γ then some g.toGB else firstGB rest γ

theorem gidEntries_cons (k : String) (g : SpanGroup) (rest : List (String × SpanGroup))
    (γ : Nat) :
    gidEntries ((k, g) :: rest) γ =
      if g.gid = γ then k :: gidEntries rest γ else gidEntries rest γ := by
  by_cases h : g.gid = γ <;> simp [gidEntries, List.filter_cons, h]

theorem lookupKey_addIdEntry (acc : List (Nat × GroupBytes × List String)) (γ γ' : Nat)
    (gb : GroupBytes) (k : String) :
    lookupKey (addIdEntry acc γ gb k) γ' =
      if γ = γ' then
        match lookupKey acc γ' with
        | some (gb', keys) => some (gb', keys ++ [k])
        | none => some (gb, [k])
      else lookupKey acc γ' := by
  induction acc with
  | nil => by_cases h : γ = γ' <;> simp [addIdEntry, lookupKey, h]
  | cons e rest ih =>
    obtain ⟨γ₀, gb₀, keys₀⟩ := e
    by_cases h0 : γ₀ = γ
    · subst h0
      by_cases h1 : γ₀ = γ'
      · subst h1
        simp [addIdEntry, lookupKey]
      · simp [addIdEntry, lookupKey, h1]
    · by_cases h1 : γ₀ = γ'
      · subst h1
        have : ¬ γ = γ₀ := fun hh => h0 hh.symm
        simp [addIdEntry, lookupKey, h0, this]
      · simp [addIdEntry, lookupKey, h0, h1, ih]

theorem lookupKey_buildIdBytesKeys (data : List (String × SpanGroup))
    (acc : List (Nat × GroupBytes × List String)) (γ : Nat) :
    lookupKey (buildIdBytesKeys data acc) γ =
      match lookupKey acc γ with
      | some (gb, keys) => some (gb, keys ++ gidEntries data γ)
      | none => (firstGB data γ).map fun gb => (gb, gidEntries data γ) := by
  induction data generalizing acc with
  | nil =>
    cases h : lookupKey acc γ with
    | none => simp [buildIdBytesKeys, gidEntries, firstGB, h]
    | some x => obtain ⟨gb, keys⟩ := x; simp [buildIdBytesKeys, gidEntries, h]
  | cons e rest ih =>
    obtain ⟨k, g⟩ := e
    rw [buildIdBytesKeys, ih, lookupKey_addIdEntry]
    by_cases hγ : g.gid = γ
    · rw [if_pos hγ]
      cases h : lookupKey acc γ with
      | none => simp [gidEntries_cons, firstGB, hγ]
      | some x => obtain ⟨gb, keys⟩ := x; simp [gidEntries_cons, hγ]
    · rw [if_neg hγ]
      cases h : lookupKey acc γ with
      | none => simp [gidEntries_cons, firstGB, hγ]
      | some x => obtain ⟨gb, keys⟩ := x; simp [gidEntries_cons, hγ]

theorem bucketGids_addIdEntry (acc : List (Nat × GroupBytes × List String)) (γ : Nat)
    (gb : GroupBytes) (k : String) :
    (addIdEntry acc γ gb k).map Prod.fst =
      if γ ∈ acc.map Prod.fst then acc.map Prod.fst else acc.map Prod.fst ++ [γ] := by
  induction acc with
  | nil => simp [addIdEntry]
  | cons e rest ih =>
    obtain ⟨γ₀, gb₀, keys₀⟩ := e
    by_cases h0 : γ₀ = γ
    · subst h0
      simp [addIdEntry]
    · have : ¬ γ = γ₀ := fun hh => h0 hh.symm
      by_cases hm : γ ∈ rest.map Prod.fst <;>
        simp [addIdEntry, h0, this, hm, ih]

theorem bucketGids_nodup (data : List (String × SpanGroup))
    (acc : List (Nat × GroupBytes × List String)) (h : (acc.map Prod.fst).Nodup) :
    ((buildIdBytesKeys data acc).map Prod.fst).Nodup := by
  induction data generalizing acc with
  | nil => exact h
  | cons e rest ih =>
    obtain ⟨k, g⟩ := e
    rw [buildIdBytesKeys]
    refine ih _ ?_
    rw [bucketGids_addIdEntry]
    by_cases hm : g.gid ∈ acc.map Prod.fst
    · simp [hm, h]
    · simp [List.nodup_append, hm, h]

theorem mem_gidEntries (data : List (String × SpanGroup)) (k : String) (g : SpanGroup)
    (h : (k, g) ∈ data) : k ∈ gidEntries data g.gid := by
  simp only [gidEntries, List.mem_map]
  exact ⟨(k, g), List.mem_filter.mpr ⟨h, by simp⟩, rfl⟩

theorem of_mem_gidEntries (data : List (String × SpanGroup)) (x : String) (γ : Nat)
    (h : x ∈ gidEntries data γ) : ∃ g', (x, g') ∈ data ∧ g'.gid = γ := by
  simp only [gidEntries, List.mem_map] at h
  obtain ⟨e, he, hx⟩ := h
  obtain ⟨hmem, hgid⟩ := List.mem_filter.mp he
  exact ⟨e.2, by rw [← hx]; exact hmem, by simpa using hgid⟩

theorem firstGB_eq_of_mem (data : List (String × SpanGroup)) (k : String) (g : SpanGroup)
    (hmem : (k, g) ∈ data)
    (hgid : ∀ p ∈ data, ∀ q ∈ data, p.2.gid = q.2.gid → p.2 = q.2) :
    firstGB data g.gid = some g.toGB := by
  induction data with
  | nil => simp at hmem
  | cons e rest ih =>
    obtain ⟨k₀, g₀⟩ := e
    by_cases h0 : g₀.gid = g.gid
    · have : g₀ = g := hgid (k₀, g₀) (List.mem_cons_self _ _) (k, g) hmem h0
      simp [firstGB, h0, this]
    · rcases List.mem_cons.mp hmem with h' | h'
      · cases h'
        exact absurd rfl h0
      · rw [firstGB, if_neg h0]
        exact ih h' fun p hp q hq => hgid p (List.mem_cons_of_mem _ hp) q (List.mem_cons_of_mem _ hq)

theorem firstGB_mem (data : List (String × SpanGroup)) (γ : Nat) (gb : GroupBytes)
    (h : firstGB data γ = some gb) : ∃ e ∈ data, e.2.gid = γ ∧ e.2.toGB = gb := by
  induction data with
  | nil => simp [firstGB] at h
  | cons e rest ih =>
    obtain ⟨k₀, g₀⟩ := e
    by_cases h0 : g₀.gid = γ
    · rw [firstGB, if_pos h0] at h
      cases h
      exact ⟨(k₀, g₀), List.mem_cons_self _ _, h0, rfl⟩
    · rw [firstGB, if_neg h0] at h
      obtain ⟨e', he', hγ, hgb⟩ := ih h
      exact ⟨e', List.mem_cons_of_mem _ he', hγ, hgb⟩

theorem buildDict_eq_append {κ β : Type} [DecidableEq κ] (l acc : List (κ × β))
    (h : ((acc ++ l).map Prod.fst).Nodup) : buildDict l acc = acc ++ l := by
  induction l generalizing acc with
  | nil => simp [buildDict]
  | cons e rest ih =>
    obtain ⟨k, v⟩ := e
    have hmaps : ((acc.map Prod.fst) ++ (k :: rest.map Prod.fst)).Nodup := by
      simpa using h
    have hdisj := (List.nodup_append.mp hmaps).2.2
    have hk : lookupKey acc k = none :=
      lookupKey_eq_none_of_not_mem_keys _ _
        (fun hmem => hdisj hmem (List.mem_cons_self _ _))
    rw [buildDict, setEntry_of_not_mem _ _ _ hk, ih]
    · simp
    · simpa using h

theorem bucket_spec (data : List (String × SpanGroup)) (e : Nat × GroupBytes × List String)
    (he : e ∈ buildIdBytesKeys data []) :
    firstGB data e.1 = some e.2.1 ∧ e.2.2 = gidEntries data e.1 := by
  have hnd : ((buildIdBytesKeys data []).map Prod.fst).Nodup :=
    bucketGids_nodup data [] (by simp)
  have hmem : (e.1, e.2) ∈ buildIdBytesKeys data [] := by
    simpa using he
  have hlk : lookupKey (buildIdBytesKeys data []) e.1 = some e.2 :=
    lookupKey_eq_some_of_mem _ _ _ hmem hnd
  rw [lookupKey_buildIdBytesKeys data [] e.1] at hlk
  simp only [lookupKey] at hlk
  cases hfb : firstGB data e.1 with
  | none => rw [hfb] at hlk; simp at hlk
  | some gb =>
    rw [hfb] at hlk
    simp only [Option.map_some', Option.some.injEq] at hlk
    rw [← hlk]
    exact ⟨rfl, rfl⟩

/-- Structure of the msgpack value emitted by `to_bytes` on a non-empty
container with consistent instance identities (`hgid`: one identity, one
group) whose distinct instances have distinct payloads (`hinj`). -/
theorem to_bytes_entries (sg : SpanGroups) (hne : sg.data ≠ [])
    (hnodup : (sg.data.map Prod.fst).Nodup)
    (hgid : ∀ p ∈ sg.data, ∀ q ∈ sg.data, p.2.gid = q.2.gid → p.2 = q.2)
    (hinj : ∀ p ∈ sg.data, ∀ q ∈ sg.data, p.2.gid ≠ q.2.gid → p.2.toGB ≠ q.2.toGB) :
    ∃ entries : List (GroupBytes × List String),
      sg.to_bytes = Bytes.enc (Msg.mdict entries) ∧
      (entries.map Prod.fst).Nodup ∧
      entries.Pairwise (fun e e' => ∀ x ∈ e.2, x ∉ e'.2) ∧
      (∀ k g, lookupKey sg.data k = some g →
        (g.toGB, gidEntries sg.data g.gid) ∈ entries ∧ k ∈ gidEntries sg.data g.gid) ∧
      (∀ e ∈ entries, ∀ x ∈ e.2, ∃ g', lookupKey sg.data x = some g') := by
  set L := buildIdBytesKeys sg.data [] with hL
  set M := L.map (fun e => (e.2.1, e.2.2)) with hM
  have hLnd : (L.map Prod.fst).Nodup := bucketGids_nodup sg.data [] (by simp)
  have hLnodup : L.Nodup := hLnd.of_map
  -- each data entry gives a unique underlying group per label
  have huniq : ∀ x g' g'', (x, g') ∈ sg.data → (x, g'') ∈ sg.data → g' = g'' := by
    intro x g' g'' h1 h2
    have e1 := lookupKey_eq_some_of_mem _ _ _ h1 hnodup
    have e2 := lookupKey_eq_some_of_mem _ _ _ h2 hnodup
    rw [e1] at e2
    exact Option.some.inj e2
  -- distinct buckets carry distinct payload keys
  have hMkeys : (M.map Prod.fst).Nodup := by
    rw [hM, List.map_map]
    refine List.Nodup.map_on ?_ hLnodup
    intro x hx y hy hxy
    simp only [Function.comp] at hxy
    obtain ⟨hfx, _⟩ := bucket_spec sg.data x hx
    obtain ⟨hfy, _⟩ := bucket_spec sg.data y hy
    have hxy1 : x.1 = y.1 := by
      by_contra hne1
      obtain ⟨p, hp, hpγ, hpgb⟩ := firstGB_mem _ _ _ hfx
      obtain ⟨q, hq, hqγ, hqgb⟩ := firstGB_mem _ _ _ hfy
      have : p.2.gid ≠ q.2.gid := by rw [hpγ, hqγ]; exact hne1
      exact hinj p hp q hq this (by rw [hpgb, hqgb, hxy])
    have ex := lookupKey_eq_some_of_mem L x.1 x.2 (by simpa using hx) hLnd
    have ey := lookupKey_eq_some_of_mem L y.1 y.2 (by simpa using hy) hLnd
    rw [hxy1] at ex
    rw [ex] at ey
    exact Prod.ext hxy1 (Option.some.inj ey)
  -- buckets have pairwise-disjoint label lists
  have hMdis : M.Pairwise (fun e e' => ∀ x ∈ e.2, x ∉ e'.2) := by
    rw [hM, List.pairwise_map]
    have hpw : L.Pairwise (fun a b => a.1 ≠ b.1) := List.pairwise_map.mp hLnd
    refine hpw.imp_of_mem ?_
    intro a b ha hb hab x hxa hxb
    obtain ⟨_, h2a⟩ := bucket_spec sg.data a ha
    obtain ⟨_, h2b⟩ := bucket_spec sg.data b hb
    rw [h2a] at hxa
    rw [h2b] at hxb
    obtain ⟨ga, hga, hgaγ⟩ := of_mem_gidEntries _ _ _ hxa
    obtain ⟨gb', hgb, hgbγ⟩ := of_mem_gidEntries _ _ _ hxb
    have : ga = gb' := huniq x ga gb' hga hgb
    rw [this, hgbγ] at hgaγ
    exact hab hgaγ.symm
  refine ⟨M, ?_, hMkeys, hMdis, ?_, ?_⟩
  · rw [SpanGroups.to_bytes, if_neg hne]
    rw [buildDict_eq_append M [] (by simpa using hMkeys)]
    simp [hM, hL]
  · intro k g hlk
    have hmem : (k, g) ∈ sg.data := mem_of_lookupKey_eq_some _ _ _ hlk
    have hfb : firstGB sg.data g.gid = some g.toGB := firstGB_eq_of_mem _ _ _ hmem hgid
    have hbkt : lookupKey L g.gid = some (g.toGB, gidEntries sg.data g.gid) := by
      rw [hL, lookupKey_buildIdBytesKeys sg.data [] g.gid]
      simp [lookupKey, hfb]
    have hbmem : (g.gid, g.toGB, gidEntries sg.data g.gid) ∈ L :=
      mem_of_lookupKey_eq_some _ _ _ hbkt
    exact ⟨List.mem_map.mpr ⟨_, hbmem, rfl⟩, mem_gidEntries _ _ _ hmem⟩
  · intro e he x hx
    rw [hM] at he
    obtain ⟨e', he', rfl⟩ := List.mem_map.mp he
    obtain ⟨_, h2⟩ := bucket_spec sg.data e' he'
    rw [h2] at hx
    obtain ⟨g', hg', _⟩ := of_mem_gidEntries _ _ _ hx
    exact ⟨g', lookupKey_eq_some_of_mem _ _ _ hg' hnodup⟩

theorem contentEq_iff (g h : SpanGroup) : contentEq g h ↔ g.toGB = h.toGB := by
  unfold contentEq SpanGroup.toGB
  constructor
  · rintro ⟨h1, h2⟩
    rw [h1, h2]
  · intro hh
    exact ⟨congrArg GroupBytes.name hh, congrArg GroupBytes.spans hh⟩

theorem from_bytes_mdict (sg : SpanGroups) (d base : Nat)
    (entries : List (GroupBytes × List String)) (hdoc : sg.docRef = some d) :
    sg.from_bytes base (Bytes.enc (Msg.mdict entries)) =
      ⟨⟨some d, dictApply d base entries []⟩, [], none⟩ := by
  simp only [SpanGroups.from_bytes, hdoc]
  rw [if_neg (by simp)]
  exact decodeDict_eq d base entries ⟨some d, []⟩ rfl

/-! ### The claims -/

/-- C1, corrected: when `from_bytes` decodes the current map format, every
label of a map entry — the first and every subsequent one alike — is bound
to the one `SpanGroup` instance decoded once from that entry's bytes and
owned by the resolved parent; no copy is made, so instance-level aliasing
IS reconstructed. (Stated for payloads whose label lists are pairwise
disjoint, as `to_bytes` produces.) -/
theorem C1_map_decode_shares_instance (d base : Nat)
    (entries : List (GroupBytes × List String)) (gb : GroupBytes) (keys : List String)
    (k₀ k : String) (he : (gb, keys) ∈ entries) (hk₀ : k₀ ∈ keys) (hk : k ∈ keys)
    (hdis : entries.Pairwise fun e e' => ∀ x ∈ e.2, x ∉ e'.2) :
    ((SpanGroups.mk (some d) []).from_bytes base (Bytes.enc (Msg.mdict entries))).err
      = none ∧
    ∃ g : SpanGroup,
      lookupKey ((SpanGroups.mk (some d) []).from_bytes base
        (Bytes.enc (Msg.mdict entries))).c.data k₀ = some g ∧
      lookupKey ((SpanGroups.mk (some d) []).from_bytes base
        (Bytes.enc (Msg.mdict entries))).c.data k = some g ∧
      g.toGB = gb ∧ g.docId = d := by
  rw [from_bytes_mdict _ d base entries rfl]
  obtain ⟨g, hg, hg', hgb, hd⟩ := keyGroup_same d base entries gb keys k₀ k he hk₀ hk hdis
  refine ⟨rfl, g, ?_, ?_, hgb, hd⟩
  · simp [lookupKey_dictApply_group, hg]
  · simp [lookupKey_dictApply_group, hg']

theorem C1_witness :
    ((⟨"n", [1]⟩, ["A", "B"]) ∈ [((⟨"n", [1]⟩ : GroupBytes), ["A", "B"])] ∧
      "A" ∈ ["A", "B"] ∧ "B" ∈ ["A", "B"]) ∧
    (((SpanGroups.mk (some 0) []).from_bytes 100
        (Bytes.enc (Msg.mdict [(⟨"n", [1]⟩, ["A", "B"])]))).err = none ∧
    ∃ g : SpanGroup,
      lookupKey ((SpanGroups.mk (some 0) []).from_bytes 100
        (Bytes.enc (Msg.mdict [(⟨"n", [1]⟩, ["A", "B"])]))).c.data "A" = some g ∧
      lookupKey ((SpanGroups.mk (some 0) []).from_bytes 100
        (Bytes.enc (Msg.mdict [(⟨"n", [1]⟩, ["A", "B"])]))).c.data "B" = some g ∧
      g.toGB = ⟨"n", [1]⟩ ∧ g.docId = 0) :=
  ⟨⟨by simp, by simp, by simp⟩,
   C1_map_decode_shares_instance 0 100 [(⟨"n", [1]⟩, ["A", "B"])] ⟨"n", [1]⟩
     ["A", "B"] "A" "B" (by simp) (by simp) (by simp) (by simp)⟩

/-- C1, counterexample: decoding the single-entry map payload
`{n-bytes: ["A", "B"]}` binds the subsequent label "B" to the very same
instance as "A" (`gid` 100 both times), not to a copy: the claim that
subsequent labels get a new instance is false at this input. -/
theorem C1_counterexample :
    ¬ (∀ gA gB : SpanGroup,
        lookupKey ((SpanGroups.mk (some 0) []).from_bytes 100
          (Bytes.enc (Msg.mdict [(⟨"n", [1]⟩, ["A", "B"])]))).c.data "A" = some gA →
        lookupKey ((SpanGroups.mk (some 0) []).from_bytes 100
          (Bytes.enc (Msg.mdict [(⟨"n", [1]⟩, ["A", "B"])]))).c.data "B" = some gB →
        gA.gid ≠ gB.gid) := by
  intro h
  exact h ⟨100, 0, "n", [1]⟩ ⟨100, 0, "n", [1]⟩ (by decide) (by decide) rfl

/-- C2, corrected: when the legacy list format contains two blobs with the
same embedded name, the container warns exactly once but the LATER blob's
group overwrites the earlier one — the collision keeps the last
occurrence, not the first. -/
theorem C2_list_collision_last_wins (d base : Nat) (gb1 gb2 : GroupBytes)
    (hname : gb1.name = gb2.name) :
    (SpanGroups.mk (some d) []).from_bytes base (Bytes.enc (Msg.mlist [gb1, gb2])) =
      ⟨⟨some d, [(gb2.name, gb2.toGroup d (base + 1))]⟩, [gb2.name], none⟩ := by
  simp [SpanGroups.from_bytes, decodeList, SpanGroups.setitemGroup, GroupBytes.toGroup,
    setEntry, lookupKey, hname]

theorem C2_witness :
    ((⟨"x", [1]⟩ : GroupBytes).name = (⟨"x", [2]⟩ : GroupBytes).name) ∧
    (SpanGroups.mk (some 0) []).from_bytes 100
        (Bytes.enc (Msg.mlist [⟨"x", [1]⟩, ⟨"x", [2]⟩])) =
      ⟨⟨some 0, [("x", GroupBytes.toGroup ⟨"x", [2]⟩ 0 101)]⟩, ["x"], none⟩ :=
  ⟨rfl, C2_list_collision_last_wins 0 100 ⟨"x", [1]⟩ ⟨"x", [2]⟩ rfl⟩

/-- C2, counterexample: decoding the legacy list `[x:[1], x:[2]]` keeps the
SECOND blob's group (spans `[2]`), not the first-seen one (spans `[1]`),
refuting "keeps the first-seen group"; one warning is emitted. -/
theorem C2_counterexample :
    (lookupKey ((SpanGroups.mk (some 0) []).from_bytes 100
        (Bytes.enc (Msg.mlist [⟨"x", [1]⟩, ⟨"x", [2]⟩]))).c.data "x").map SpanGroup.spans
      ≠ some [1] ∧
    (lookupKey ((SpanGroups.mk (some 0) []).from_bytes 100
        (Bytes.enc (Msg.mlist [⟨"x", [1]⟩, ⟨"x", [2]⟩]))).c.data "x").map SpanGroup.spans
      = some [2] ∧
    ((SpanGroups.mk (some 0) []).from_bytes 100
        (Bytes.enc (Msg.mlist [⟨"x", [1]⟩, ⟨"x", [2]⟩]))).warns.length = 1 := by
  decide

/-- C3, corrected: a decoded top-level value that is neither a list nor a
map is silently ignored — `from_bytes` raises nothing and returns the
(cleared) empty container; there is no hard decode error. -/
theorem C3_unrecognized_shape_ignored (sg : SpanGroups) (d base n : Nat)
    (hdoc : sg.docRef = some d) :
    sg.from_bytes base (Bytes.enc (Msg.other n)) = ⟨⟨some d, []⟩, [], none⟩ := by
  have h1 : ({ sg with data := ([] : List (String × SpanGroup)) } : SpanGroups).docRef
      = some d := hdoc
  simp [SpanGroups.from_bytes, h1, hdoc]

theorem C3_witness :
    ((SpanGroups.mk (some 0) [("p", ⟨9, 0, "p", []⟩)]).docRef = some 0) ∧
    (SpanGroups.mk (some 0) [("p", ⟨9, 0, "p", []⟩)]).from_bytes 100
        (Bytes.enc (Msg.other 7)) = ⟨⟨some 0, []⟩, [], none⟩ :=
  ⟨rfl, C3_unrecognized_shape_ignored _ 0 100 7 rfl⟩

/-- C3, counterexample: on the malformed payload `other 7` (top-level
value neither list nor map) `from_bytes` surfaces NO error (`err = none`)
and leaves the container empty, refuting the claimed hard decode error. -/
theorem C3_counterexample :
    ((SpanGroups.mk (some 0) [("p", ⟨9, 0, "p", []⟩)]).from_bytes 100
        (Bytes.enc (Msg.other 7))).err = none ∧
    ((SpanGroups.mk (some 0) [("p", ⟨9, 0, "p", []⟩)]).from_bytes 100
        (Bytes.enc (Msg.other 7))).c.data = [] := by
  decide

/-- C4, corrected: `from_bytes(to_bytes(c))` into a fresh container bound
to the same parent succeeds, preserves the label set and restores a
content-equal group under every label — PROVIDED distinct group instances
in `c` have distinct serialized payloads (`hinj`; without it labels are
lost, see the counterexample). `hgid` says instance identities are
consistent (one identity, one group), `hnodup` that labels are unique. -/
theorem C4_roundtrip_content (d base : Nat) (sg : SpanGroups)
    (hdoc : sg.docRef = some d)
    (hnodup : (sg.data.map Prod.fst).Nodup)
    (hgid : ∀ p ∈ sg.data, ∀ q ∈ sg.data, p.2.gid = q.2.gid → p.2 = q.2)
    (hinj : ∀ p ∈ sg.data, ∀ q ∈ sg.data, p.2.gid ≠ q.2.gid → p.2.toGB ≠ q.2.toGB) :
    ((SpanGroups.mk (some d) []).from_bytes base sg.to_bytes).err = none ∧
    (∀ k, (lookupKey ((SpanGroups.mk (some d) []).from_bytes base sg.to_bytes).c.data
        k).isSome = (lookupKey sg.data k).isSome) ∧
    (∀ k g, lookupKey sg.data k = some g →
      ∃ h', lookupKey ((SpanGroups.mk (some d) []).from_bytes base
        sg.to_bytes).c.data k = some h' ∧ contentEq h' g) := by
  by_cases hempty : sg.data = []
  · have henc : sg.to_bytes = SpanGroups._EMPTY_BYTES := by
      rw [SpanGroups.to_bytes, if_pos hempty]
    have hout : (SpanGroups.mk (some d) []).from_bytes base sg.to_bytes
        = ⟨⟨some d, []⟩, [], none⟩ := by
      rw [henc]
      rfl
    rw [hout]
    refine ⟨rfl, ?_, ?_⟩
    · intro k
      rw [hempty]
    · intro k g hg
      rw [hempty] at hg
      cases hg
  · obtain ⟨entries, henc, hkeysnd, hdis, hfwd, hbwd⟩ :=
      to_bytes_entries sg hempty hnodup hgid hinj
    rw [henc, from_bytes_mdict _ d base entries rfl]
    have hmap : ∀ k, (lookupKey (dictApply d base entries []) k).map SpanGroup.toGB
        = (lookupKey sg.data k).map SpanGroup.toGB := by
      intro k
      rw [lookupKey_dictApply_toGB]
      cases hlk : lookupKey sg.data k with
      | some g =>
        obtain ⟨hment, hkg⟩ := hfwd k g hlk
        rw [keyGB_of_mem entries g.toGB _ k hment hkg hdis]
        rfl
      | none =>
        have hnone : keyGB entries k = none := by
          apply keyGB_eq_none
          intro e he hke
          obtain ⟨g', hg'⟩ := hbwd e he k hke
          rw [hlk] at hg'
          cases hg'
        rw [hnone]
        simp [lookupKey]
    refine ⟨rfl, ?_, ?_⟩
    · intro k
      have hh := hmap k
      cases h1 : lookupKey (dictApply d base entries []) k <;>
        cases h2 : lookupKey sg.data k <;> rw [h1, h2] at hh <;> simp_all
    · intro k g hlk
      have hh := hmap k
      rw [hlk] at hh
      cases h1 : lookupKey (dictApply d base entries []) k with
      | none =>
        rw [h1] at hh
        simp at hh
      | some h' =>
        rw [h1] at hh
        simp only [Option.map_some'] at hh
        exact ⟨h', rfl, (contentEq_iff h' g).mpr (Option.some.inj hh)⟩

theorem C4_witness :
    ((SpanGroups.mk (some 0) [("A", ⟨1, 0, "n", [1]⟩), ("B", ⟨1, 0, "n", [1]⟩),
        ("C", ⟨2, 0, "m", [2]⟩)]).docRef = some 0 ∧
     ((SpanGroups.mk (some 0) [("A", ⟨1, 0, "n", [1]⟩), ("B", ⟨1, 0, "n", [1]⟩),
        ("C", ⟨2, 0, "m", [2]⟩)]).data.map Prod.fst).Nodup) ∧
    (((SpanGroups.mk (some 0) []).from_bytes 100
        (SpanGroups.mk (some 0) [("A", ⟨1, 0, "n", [1]⟩), ("B", ⟨1, 0, "n", [1]⟩),
          ("C", ⟨2, 0, "m", [2]⟩)]).to_bytes).err = none ∧
     (∀ k, (lookupKey (((SpanGroups.mk (some 0) []).from_bytes 100
        (SpanGroups.mk (some 0) [("A", ⟨1, 0, "n", [1]⟩), ("B", ⟨1, 0, "n", [1]⟩),
          ("C", ⟨2, 0, "m", [2]⟩)]).to_bytes)).c.data k).isSome
        = (lookupKey (SpanGroups.mk (some 0) [("A", ⟨1, 0, "n", [1]⟩),
            ("B", ⟨1, 0, "n", [1]⟩), ("C", ⟨2, 0, "m", [2]⟩)]).data k).isSome) ∧
     (∀ k g, lookupKey (SpanGroups.mk (some 0) [("A", ⟨1, 0, "n", [1]⟩),
          ("B", ⟨1, 0, "n", [1]⟩), ("C", ⟨2, 0, "m", [2]⟩)]).data k = some g →
        ∃ h', lookupKey (((SpanGroups.mk (some 0) []).from_bytes 100
          (SpanGroups.mk (some 0) [("A", ⟨1, 0, "n", [1]⟩), ("B", ⟨1, 0, "n", [1]⟩),
            ("C", ⟨2, 0, "m", [2]⟩)]).to_bytes)).c.data k = some h' ∧ contentEq h' g)) :=
  ⟨⟨rfl, by decide⟩,
   C4_roundtrip_content 0 100 _ rfl (by decide) (by decide) (by decide)⟩

/-- C4, counterexample: in the container `{A: g1, B: g1, C: g2}` where the
distinct instances `g1`, `g2` have identical serialized bytes, the
round-trip loses the labels `A` and `B` (`g2`'s bucket overwrites `g1`'s
under the shared byte key), so the decoded label set differs from the
original — the claim fails as universally stated. -/
theorem C4_counterexample :
    (lookupKey (SpanGroups.mk (some 0) [("A", ⟨1, 0, "n", []⟩), ("B", ⟨1, 0, "n", []⟩),
        ("C", ⟨2, 0, "n", []⟩)]).data "A").isSome ∧
    lookupKey (((SpanGroups.mk (some 0) []).from_bytes 100
      (SpanGroups.mk (some 0) [("A", ⟨1, 0, "n", []⟩), ("B", ⟨1, 0, "n", []⟩),
        ("C", ⟨2, 0, "n", []⟩)]).to_bytes)).c.data "A" = none := by
  decide

/-- C5, corrected: `to_bytes` groups labels by the underlying group
INSTANCE (not payload): all `N` labels bound to one instance are written
exactly once, as the single map entry keyed by that instance's bytes whose
value `gidEntries` is the container-ordered list of exactly those labels
(provided distinct instances have distinct payloads; labels sharing only
payload content across distinct instances are not merged, see the
counterexample). -/
theorem C5_instance_grouping (sg : SpanGroups) (k₀ : String) (g : SpanGroup)
    (hnodup : (sg.data.map Prod.fst).Nodup)
    (hgid : ∀ p ∈ sg.data, ∀ q ∈ sg.data, p.2.gid = q.2.gid → p.2 = q.2)
    (hinj : ∀ p ∈ sg.data, ∀ q ∈ sg.data, p.2.gid ≠ q.2.gid → p.2.toGB ≠ q.2.toGB)
    (hlk : lookupKey sg.data k₀ = some g) :
    ∃ entries : List (GroupBytes × List String),
      sg.to_bytes = Bytes.enc (Msg.mdict entries) ∧
      (entries.map Prod.fst).Nodup ∧
      (g.toGB, gidEntries sg.data g.gid) ∈ entries ∧
      k₀ ∈ gidEntries sg.data g.gid ∧
      (∀ x, x ∈ gidEntries sg.data g.gid ↔
        ∃ h', lookupKey sg.data x = some h' ∧ h'.gid = g.gid) := by
  have hempty : sg.data ≠ [] := by
    intro hh
    rw [hh] at hlk
    cases hlk
  obtain ⟨entries, henc, hkeysnd, _, hfwd, _⟩ :=
    to_bytes_entries sg hempty hnodup hgid hinj
  obtain ⟨hment, hkg⟩ := hfwd k₀ g hlk
  refine ⟨entries, henc, hkeysnd, hment, hkg, ?_⟩
  intro x
  constructor
  · intro hx
    obtain ⟨g', hg', hγ⟩ := of_mem_gidEntries _ _ _ hx
    exact ⟨g', lookupKey_eq_some_of_mem _ _ _ hg' hnodup, hγ⟩
  · rintro ⟨h', hh', hγ⟩
    have := mem_gidEntries _ _ _ (mem_of_lookupKey_eq_some _ _ _ hh')
    rw [hγ] at this
    exact this

theorem C5_witness :
    (((SpanGroups.mk (some 0) [("A", ⟨1, 0, "n", [1]⟩), ("B", ⟨1, 0, "n", [1]⟩),
        ("C", ⟨2, 0, "m", [2]⟩)]).data.map Prod.fst).Nodup ∧
     lookupKey (SpanGroups.mk (some 0) [("A", ⟨1, 0, "n", [1]⟩), ("B", ⟨1, 0, "n", [1]⟩),
        ("C", ⟨2, 0, "m", [2]⟩)]).data "A" = some ⟨1, 0, "n", [1]⟩) ∧
    (∃ entries : List (GroupBytes × List String),
      (SpanGroups.mk (some 0) [("A", ⟨1, 0, "n", [1]⟩), ("B", ⟨1, 0, "n", [1]⟩),
        ("C", ⟨2, 0, "m", [2]⟩)]).to_bytes = Bytes.enc (Msg.mdict entries) ∧
      (entries.map Prod.fst).Nodup ∧
      ((⟨1, 0, "n", [1]⟩ : SpanGroup).toGB,
        gidEntries (SpanGroups.mk (some 0) [("A", ⟨1, 0, "n", [1]⟩),
          ("B", ⟨1, 0, "n", [1]⟩), ("C", ⟨2, 0, "m", [2]⟩)]).data
          (⟨1, 0, "n", [1]⟩ : SpanGroup).gid) ∈ entries ∧
      "A" ∈ gidEntries (SpanGroups.mk (some 0) [("A", ⟨1, 0, "n", [1]⟩),
          ("B", ⟨1, 0, "n", [1]⟩), ("C", ⟨2, 0, "m", [2]⟩)]).data
          (⟨1, 0, "n", [1]⟩ : SpanGroup).gid ∧
      (∀ x, x ∈ gidEntries (SpanGroups.mk (some 0) [("A", ⟨1, 0, "n", [1]⟩),
          ("B", ⟨1, 0, "n", [1]⟩), ("C", ⟨2, 0, "m", [2]⟩)]).data
          (⟨1, 0, "n", [1]⟩ : SpanGroup).gid ↔
        ∃ h', lookupKey (SpanGroups.mk (some 0) [("A", ⟨1, 0, "n", [1]⟩),
          ("B", ⟨1, 0, "n", [1]⟩), ("C", ⟨2, 0, "m", [2]⟩)]).data x = some h' ∧
          h'.gid = (⟨1, 0, "n", [1]⟩ : SpanGroup).gid)) :=
  ⟨⟨by decide, by decide⟩,
   C5_instance_grouping _ "A" ⟨1, 0, "n", [1]⟩ (by decide) (by decide) (by decide)
     (by decide)⟩

/-- C5, counterexample: labels `A` and `B` share one underlying payload
through two distinct instances; `to_bytes` emits the single map entry
with value `["B"]` only, not the claimed ordered list `["A", "B"]` of all
labels sharing that payload. -/
theorem C5_counterexample :
    (SpanGroups.mk (some 0) [("A", ⟨1, 0, "n", [3]⟩),
        ("B", ⟨2, 0, "n", [3]⟩)]).to_bytes
      = Bytes.enc (Msg.mdict [(⟨"n", [3]⟩, ["B"])]) ∧
    (SpanGroups.mk (some 0) [("A", ⟨1, 0, "n", [3]⟩),
        ("B", ⟨2, 0, "n", [3]⟩)]).to_bytes
      ≠ Bytes.enc (Msg.mdict [(⟨"n", [3]⟩, ["A", "B"])]) := by
  decide

/-- C6, confirmed: invariant I1 is checked on every write. `__setitem__`
asserts the stored group's owning doc is identical to the resolved
parent, raising `AssertionError` (and storing nothing) otherwise; and
entries seeded by `__init__` pass through the same assert, so seeding any
item owned by a different parent raises as well. -/
theorem C6_ownership_assert :
    (∀ (sg : SpanGroups) (k : String) (g : SpanGroup), sg.docRef ≠ some g.docId →
      sg.setitemGroup k g = (sg, some Err.assertionError)) ∧
    (∀ (d : Nat) (items : List (String × SpanGroup)) (k : String) (g : SpanGroup),
      (k, g) ∈ items → g.docId ≠ d →
      (SpanGroups.init d items).2 = some Err.assertionError) := by
  constructor
  · intro sg k g h
    simp [SpanGroups.setitemGroup, h]
  · have key : ∀ (d : Nat) (items : List (String × SpanGroup)) (sg : SpanGroups),
        sg.docRef = some d → ∀ (k : String) (g : SpanGroup), (k, g) ∈ items →
        g.docId ≠ d → (initItems sg items).2 = some Err.assertionError := by
      intro d items
      induction items with
      | nil =>
        intro sg _ k g hmem
        simp at hmem
      | cons e rest ih =>
        intro sg hsg k g hmem hgd
        obtain ⟨k₀, g₀⟩ := e
        by_cases hok : sg.docRef = some g₀.docId
        · rw [initItems, setitemGroup_ok sg k₀ g₀ hok]
          rcases List.mem_cons.mp hmem with h' | h'
          · cases h'
            rw [hsg] at hok
            exact absurd (Option.some.inj hok).symm hgd
          · exact ih { sg with data := setEntry sg.data k₀ g₀ } hsg k g h' hgd
        · have hbad : sg.setitemGroup k₀ g₀ = (sg, some Err.assertionError) := by
            simp [SpanGroups.setitemGroup, hok]
          rw [initItems, hbad]
    intro d items k g hmem hgd
    exact key d items ⟨some d, []⟩ rfl k g hmem hgd

theorem C6_witness :
    ((SpanGroups.mk (some 0) []).docRef ≠ some (SpanGroup.mk 5 1 "a" []).docId ∧
      ("a", SpanGroup.mk 5 1 "a" []) ∈ [("a", SpanGroup.mk 5 1 "a" [])] ∧
      (SpanGroup.mk 5 1 "a" []).docId ≠ 0) ∧
    (SpanGroups.mk (some 0) []).setitemGroup "a" ⟨5, 1, "a", []⟩
      = (SpanGroups.mk (some 0) [], some Err.assertionError) ∧
    (SpanGroups.init 0 [("a", ⟨5, 1, "a", []⟩)]).2 = some Err.assertionError :=
  ⟨⟨by decide, by simp, by decide⟩,
   C6_ownership_assert.1 _ "a" _ (by decide),
   C6_ownership_assert.2 0 _ "a" ⟨5, 1, "a", []⟩ (by simp) (by decide)⟩

/-- C7, confirmed: once the weak parent reference resolves to nothing,
every operation that must resolve the parent — `put` of a plain span
sequence, `from_bytes`, and `copy` without an explicit target — fails
with the owner-unavailable error (`ValueError(Errors.E866)`), surfaced to
the caller. -/
theorem C7_owner_unavailable (sg : SpanGroups) (h : sg.docRef = none) :
    (∀ (k : String) (spans : List Nat) (gid : Nat),
      sg.setitemSpans k spans gid = (sg, some Err.ownerUnavailable)) ∧
    (∀ (base : Nat) (b : Bytes), (sg.from_bytes base b).err = some Err.ownerUnavailable) ∧
    (∀ base : Nat, sg.copy none base = Except.error Err.ownerUnavailable) := by
  refine ⟨?_, ?_, ?_⟩
  · intro k spans gid
    simp [SpanGroups.setitemSpans, h]
  · intro base b
    simp [SpanGroups.from_bytes, h]
  · intro base
    simp [SpanGroups.copy, SpanGroups._ensure_doc, h]

theorem C7_witness :
    ((SpanGroups.mk none [("p", ⟨9, 0, "p", []⟩)]).docRef = none) ∧
    (SpanGroups.mk none [("p", ⟨9, 0, "p", []⟩)]).setitemSpans "q" [4] 11
      = (SpanGroups.mk none [("p", ⟨9, 0, "p", []⟩)], some Err.ownerUnavailable) ∧
    ((SpanGroups.mk none [("p", ⟨9, 0, "p", []⟩)]).from_bytes 100 Bytes.empty).err
      = some Err.ownerUnavailable ∧
    (SpanGroups.mk none [("p", ⟨9, 0, "p", []⟩)]).copy none 100
      = Except.error Err.ownerUnavailable :=
  ⟨rfl,
   (C7_owner_unavailable _ rfl).1 "q" [4] 11,
   (C7_owner_unavailable _ rfl).2.1 100 Bytes.empty,
   (C7_owner_unavailable _ rfl).2.2 100⟩

/-- C8, confirmed: the empty container encodes to the fixed sentinel
`_EMPTY_BYTES` (the msgpack encoding of the empty list), and `from_bytes`
of that sentinel, or of the empty byte string, yields an empty container
with no error. -/
theorem C8_empty_sentinel (dr : Option Nat) (sg : SpanGroups) (d base : Nat)
    (hdoc : sg.docRef = some d) :
    (SpanGroups.mk dr []).to_bytes = SpanGroups._EMPTY_BYTES ∧
    SpanGroups._EMPTY_BYTES = Bytes.enc (Msg.mlist []) ∧
    sg.from_bytes base SpanGroups._EMPTY_BYTES = ⟨⟨some d, []⟩, [], none⟩ ∧
    sg.from_bytes base Bytes.empty = ⟨⟨some d, []⟩, [], none⟩ := by
  refine ⟨rfl, rfl, ?_, ?_⟩
  · simp [SpanGroups.from_bytes, SpanGroups._EMPTY_BYTES, hdoc]
  · simp [SpanGroups.from_bytes, hdoc]

theorem C8_witness :
    ((SpanGroups.mk (some 3) [("p", ⟨9, 3, "p", []⟩)]).docRef = some 3) ∧
    (SpanGroups.mk (some 3) []).to_bytes = SpanGroups._EMPTY_BYTES ∧
    SpanGroups._EMPTY_BYTES = Bytes.enc (Msg.mlist []) ∧
    (SpanGroups.mk (some 3) [("p", ⟨9, 3, "p", []⟩)]).from_bytes 100
      SpanGroups._EMPTY_BYTES = ⟨⟨some 3, []⟩, [], none⟩ ∧
    (SpanGroups.mk (some 3) [("p", ⟨9, 3, "p", []⟩)]).from_bytes 100
      Bytes.empty = ⟨⟨some 3, []⟩, [], none⟩ :=
  ⟨rfl, C8_empty_sentinel (some 3) _ 3 100 rfl⟩

/-- C9, confirmed: two distinct instances with identical serialized bytes
collide in the byte-keyed output map of `to_bytes`: the later instance's
label list overwrites the earlier one's, the earlier labels are absent
from the encoding, and the subsequent decode drops them. -/
theorem C9_equal_bytes_label_loss (d base : Nat) (kA kB : String) (g1 g2 : SpanGroup)
    (hk : kA ≠ kB) (hgid : g1.gid ≠ g2.gid) (hgb : g1.toGB = g2.toGB) :
    (SpanGroups.mk (some d) [(kA, g1), (kB, g2)]).to_bytes
        = Bytes.enc (Msg.mdict [(g2.toGB, [kB])]) ∧
    lookupKey (((SpanGroups.mk (some d) []).from_bytes base
        (SpanGroups.mk (some d) [(kA, g1), (kB, g2)]).to_bytes)).c.data kA = none ∧
    lookupKey (((SpanGroups.mk (some d) []).from_bytes base
        (SpanGroups.mk (some d) [(kA, g1), (kB, g2)]).to_bytes)).c.data kB
      = some (g2.toGB.toGroup d base) := by
  have henc : (SpanGroups.mk (some d) [(kA, g1), (kB, g2)]).to_bytes
      = Bytes.enc (Msg.mdict [(g2.toGB, [kB])]) := by
    simp [SpanGroups.to_bytes, buildIdBytesKeys, addIdEntry, buildDict, setEntry,
      hgid, hgb]
  refine ⟨henc, ?_, ?_⟩
  · rw [henc, from_bytes_mdict _ d base _ rfl]
    have hkk : ¬ kB = kA := fun hh => hk hh.symm
    simp [dictApply, applyKeys, setEntry, lookupKey, hkk]
  · rw [henc, from_bytes_mdict _ d base _ rfl]
    simp [dictApply, applyKeys, setEntry, lookupKey]

theorem C9_witness :
    (("A" : String) ≠ "B" ∧ (SpanGroup.mk 1 0 "n" []).gid ≠ (SpanGroup.mk 2 0 "n" []).gid ∧
      (SpanGroup.mk 1 0 "n" []).toGB = (SpanGroup.mk 2 0 "n" []).toGB) ∧
    (SpanGroups.mk (some 0) [("A", ⟨1, 0, "n", []⟩), ("B", ⟨2, 0, "n", []⟩)]).to_bytes
        = Bytes.enc (Msg.mdict [((SpanGroup.mk 2 0 "n" []).toGB, ["B"])]) ∧
    lookupKey (((SpanGroups.mk (some 0) []).from_bytes 100
        (SpanGroups.mk (some 0) [("A", ⟨1, 0, "n", []⟩),
          ("B", ⟨2, 0, "n", []⟩)]).to_bytes)).c.data "A" = none ∧
    lookupKey (((SpanGroups.mk (some 0) []).from_bytes 100
        (SpanGroups.mk (some 0) [("A", ⟨1, 0, "n", []⟩),
          ("B", ⟨2, 0, "n", []⟩)]).to_bytes)).c.data "B"
      = some ((SpanGroup.mk 2 0 "n" []).toGB.toGroup 0 100) :=
  ⟨⟨by decide, by decide, by decide⟩,
   C9_equal_bytes_label_loss 0 100 "A" "B" ⟨1, 0, "n", []⟩ ⟨2, 0, "n", []⟩
     (by decide) (by decide) (by decide)⟩

/-- C10, confirmed: `from_bytes` clears the container before resolving the
parent, so with a dead parent it raises the owner-unavailable error
having already emptied the container: the failed decode leaves the
container empty, not unchanged. -/
theorem C10_cleared_on_dead_parent (sg : SpanGroups) (base : Nat) (b : Bytes)
    (h : sg.docRef = none) :
    sg.from_bytes base b = ⟨⟨none, []⟩, [], some Err.ownerUnavailable⟩ := by
  simp [SpanGroups.from_bytes, h]

theorem C10_witness :
    ((SpanGroups.mk none [("p", ⟨9, 0, "p", []⟩), ("q", ⟨8, 0, "q", [2]⟩)]).docRef
      = none) ∧
    (SpanGroups.mk none [("p", ⟨9, 0, "p", []⟩), ("q", ⟨8, 0, "q", [2]⟩)]).from_bytes
      100 (Bytes.enc (Msg.mdict [(⟨"n", [1]⟩, ["A"])]))
      = ⟨⟨none, []⟩, [], some Err.ownerUnavailable⟩ :=
  ⟨rfl, C10_cleared_on_dead_parent _ 100 (Bytes.enc (Msg.mdict [(⟨"n", [1]⟩, ["A"])])) rfl⟩

end DictProxies
